import Mathlib

/-!
# Shallow embedding of `qizexi/color` (files `color.go`, `color_16.go`)

Go strings are embedded as Lean `String`s.  The only pattern the package ever
compiles (`CodeExpr`) is made of ASCII characters, and an ASCII byte is always
decoded by Go as a rune of its own, so scanning characters and scanning bytes
give the same matches.

The three package-level variables `Enable`, `isLikeInCmd`, `isSupportColor`
and the process standard output are made explicit in the record `Env`.
-/

namespace GoColor

/-! ## Library functions used by the package (`fmt`, `strings`, `regexp`) -/

/-- The escape character `\x1b` (octal `\033`, decimal 27). -/
def ESC : Char := Char.ofNat 27

/-- Go `fmt.Sprintf` restricted to the verb `%s` applied to string operands, the
only use the templates `SettingTpl` and `FullColorTpl` make of it.  The format
is consumed left to right; `%s` takes the next operand, any other character is
copied.  A `%s` without operand prints `%!s(MISSING)` as Go does. -/
def Sprintf : List Char → List String → String
  | [], _ => ""
  | [c], _ => String.singleton c
  | c :: d :: t, args =>
    if c == '%' && d == 's' then
      match args with
      | a :: rest => a ++ Sprintf t rest
      | [] => "%!s(MISSING)" ++ Sprintf t []
    else String.singleton c ++ Sprintf (d :: t) args

/-- Go `fmt.Sprint` on string operands: Go adds a space between two operands only
when neither is a string, so string operands are written one after another. -/
def Sprint (args : List String) : String :=
  args.foldl (fun buf a => buf ++ a) ""

/-- Go `strings.Join(elems, sep)`: empty for no element, the element itself for
one, otherwise the first element followed by `sep ++ s` for each later `s`. -/
def stringsJoin : List String → String → String
  | [], _ => ""
  | [e], _ => e
  | e :: rest, sep => rest.foldl (fun b s => b ++ sep ++ s) e

/-- The character class `[\d;?]` of `CodeExpr` (`\d` is `[0-9]` in Go). -/
def isCodeChar (c : Char) : Bool :=
  c.isDigit || c == ';' || c == '?'

/-- Anchored match of `\033\[[\d;?]+m` at the head of the input: on success the
text that follows the match.  `+` is greedy and `m` is outside the class, so
the match, when there is one, takes the whole run of class characters. -/
def matchCodeAt : List Char → Option (List Char)
  | e :: b :: p :: rest =>
    if e == ESC && b == '[' && isCodeChar p then
      match rest.dropWhile isCodeChar with
      | t :: r => if t == 'm' then some r else none
      | [] => none
    else none
  | _ => none

/-- Go `codeRegex.ReplaceAllString(src, "")`: scan from the left; where a match
starts drop it and go on right after it, otherwise copy one character and go on
with the next one.  Every step consumes at least one character, so `fuel`
equal to the length of the input is never exhausted (`replaceAllEmpty_fuel`). -/
def replaceAllEmpty : Nat → List Char → List Char
  | 0, s => s
  | _ + 1, [] => []
  | fuel + 1, c :: cs =>
    match matchCodeAt (c :: cs) with
    | some rest => replaceAllEmpty fuel rest
    | none => c :: replaceAllEmpty fuel cs

/-- Whether the pattern `CodeExpr` matches somewhere in the text. -/
def hasCode : List Char → Bool
  | [] => false
  | c :: cs => (matchCodeAt (c :: cs)).isSome || hasCode cs

/-- Whether every `ESC` character of the text starts a match of `CodeExpr`. -/
def escAllCodes : List Char → Bool
  | [] => true
  | c :: cs => (c != ESC || (matchCodeAt (c :: cs)).isSome) && escAllCodes cs

/-! ## `color.go` -/

/-- The template `SettingTpl = "\x1b[%sm"`. -/
def SettingTpl : String := "\x1b[%sm"

/-- The template `FullColorTpl = "\x1b[%sm%s\x1b[0m"`. -/
def FullColorTpl : String := "\x1b[%sm%s\x1b[0m"

/-- The constant `ResetCode = "0"`. -/
def ResetCode : String := "0"

/-- The constant `ResetSet = "\x1b[0m"`. -/
def ResetSet : String := "\x1b[0m"

/-- The package variables and the standard output of the process. -/
structure Env where
  /-- Variable `var Enable = true`, the switch of the color display. -/
  Enable : Bool
  /-- Variable `isLikeInCmd`: the environment is like `cmd.exe`. -/
  isLikeInCmd : Bool
  /-- Variable `isSupportColor`: the environment supports color. -/
  isSupportColor : Bool
  /-- What has been written to the standard output so far. -/
  stdout : String
deriving DecidableEq, Repr

/-- The result `(int, error)` of a printing function: bytes written and error. -/
abbrev PrintResult := Nat × Option String

/-- The replacement run on the characters of a text, with the fuel of its
length. -/
def stripChars (s : List Char) : List Char :=
  replaceAllEmpty s.length s

/-- Function `ClearCode(str)`: `codeRegex.ReplaceAllString(str, "")`. -/
def ClearCode (str : String) : String :=
  ⟨stripChars str.data⟩

/-- Function `RenderCode(code, args...)`, with string operands `args`. -/
def RenderCode (env : Env) (code : String) (args : List String) : String :=
  let message := Sprint args
  if code.isEmpty then message
  else if !env.Enable || !env.isSupportColor then ClearCode message
  else Sprintf FullColorTpl.data [code, message]

/-- Function `RenderString(code, str)`. -/
def RenderString (env : Env) (code : String) (str : String) : String :=
  if code.isEmpty || str == "" then str
  else if !env.Enable || !env.isSupportColor then ClearCode str
  else Sprintf FullColorTpl.data [code, str]

/-- Function `Disable()`: `Enable = false`. -/
def Disable (env : Env) : Env :=
  { env with Enable := false }

/-- Go `fmt.Printf(format, args...)` on a standard output that accepts the write:
the formatted text is appended and its length in bytes is returned. -/
def Printf (env : Env) (format : String) (args : List String) : Env × PrintResult :=
  let s := Sprintf format.data args
  ({ env with stdout := env.stdout ++ s }, (s.utf8ByteSize, none))

/-- Go `fmt.Print(s)` of one string on a standard output that accepts the write. -/
def Print (env : Env) (s : String) : Env × PrintResult :=
  ({ env with stdout := env.stdout ++ s }, (s.utf8ByteSize, none))

/-! ## `color_16.go` -/

/-- Go's type `string`, under a name usable next to `Color.String`. -/
abbrev GoString := String

/-- Type `type Color uint8`. -/
abbrev Color := Fin 256

/-- Method `Color.String()`: `fmt.Sprintf("%d", c)`, the decimal rendering. -/
def Color.String (c : Color) : String :=
  Nat.repr c.val

/-- Method `Color.IsValid()`: `c < 107`. -/
def Color.IsValid (c : Color) : Bool :=
  decide (c < 107)

/-- Function `colors2code(colors...)`. -/
def colors2code (colors : List Color) : String :=
  if colors.length == 0 then ""
  else
    let codes := colors.foldl (fun (codes : List String) color => codes ++ [Color.String color]) []
    stringsJoin codes ";"

/-- Method `Color.Text(message)`. -/
def Color.Text (env : Env) (c : Color) (message : GoString) : GoString :=
  RenderString env (Color.String c) message

/-- Method `Color.Render(a...)`, with string operands. -/
def Color.Render (env : Env) (c : Color) (a : List GoString) : GoString :=
  RenderCode env (Color.String c) a

/-- Function `Set(colors...)`.  The branch for `cmd.exe` calls `winSet`, which is not
part of the two files; it is a parameter. -/
def Set (winSet : Env → List Color → Env × PrintResult) (env : Env)
    (colors : List Color) : Env × PrintResult :=
  if !env.Enable then (env, (0, none))
  else if env.isLikeInCmd then winSet env colors
  else Printf env SettingTpl [colors2code colors]

/-- Function `Reset()`.  The branch for `cmd.exe` calls `winReset`, a parameter. -/
def Reset (winReset : Env → Env × PrintResult) (env : Env) : Env × PrintResult :=
  if !env.Enable then (env, (0, none))
  else if env.isLikeInCmd then winReset env
  else Print env ResetSet

/-! ### Constants: `iota` is the index of the line in its `const` block -/

def FgBlack : Color := 0 + 30
def FgRed : Color := 1 + 30
def FgGreen : Color := 2 + 30
def FgYellow : Color := 3 + 30
def FgBlue : Color := 4 + 30
def FgMagenta : Color := 5 + 30
def FgCyan : Color := 6 + 30
def FgWhite : Color := 7 + 30
def FgDefault : Color := 39

def FgDarkGray : Color := 0 + 90
def FgLightRed : Color := 1 + 90
def FgLightGreen : Color := 2 + 90
def FgLightYellow : Color := 3 + 90
def FgLightBlue : Color := 4 + 90
def FgLightMagenta : Color := 5 + 90
def FgLightCyan : Color := 6 + 90
def FgLightWhite : Color := 7 + 90
def FgGray : Color := 90

def BgBlack : Color := 0 + 40
def BgRed : Color := 1 + 40
def BgGreen : Color := 2 + 40
def BgYellow : Color := 3 + 40
def BgBlue : Color := 4 + 40
def BgMagenta : Color := 5 + 40
def BgCyan : Color := 6 + 40
def BgWhite : Color := 7 + 40
def BgDefault : Color := 49

def BgDarkGray : Color := 0 + 99
def BgLightRed : Color := 1 + 99
def BgLightGreen : Color := 2 + 99
def BgLightYellow : Color := 3 + 99
def BgLightBlue : Color := 4 + 99
def BgLightMagenta : Color := 5 + 99
def BgLightCyan : Color := 6 + 99
def BgLightWhite : Color := 7 + 99
def BgGray : Color := 100

def OpReset : Color := 0
def OpBold : Color := 1
def OpFuzzy : Color := 2
def OpItalic : Color := 3
def OpUnderscore : Color := 4
def OpBlink : Color := 5
def OpFastBlink : Color := 6
def OpReverse : Color := 7
def OpConcealed : Color := 8
def OpStrikethrough : Color := 9

/-- Table `FgColors`, as the list of its entries. -/
def FgColors : List (String × Color) :=
  [("black", FgBlack), ("red", FgRed), ("green", FgGreen), ("yellow", FgYellow),
   ("blue", FgBlue), ("magenta", FgMagenta), ("cyan", FgCyan), ("white", FgWhite),
   ("default", FgDefault)]

/-- Table `BgColors`, as the list of its entries. -/
def BgColors : List (String × Color) :=
  [("black", BgBlack), ("red", BgRed), ("green", BgGreen), ("yellow", BgYellow),
   ("blue", BgBlue), ("magenta", BgMagenta), ("cyan", BgCyan), ("white", BgWhite),
   ("default", BgDefault)]

/-- Table `ExFgColors`, as the list of its entries. -/
def ExFgColors : List (String × Color) :=
  [("darkGray", FgDarkGray), ("lightRed", FgLightRed), ("lightGreen", FgLightGreen),
   ("lightYellow", FgLightYellow), ("lightBlue", FgLightBlue),
   ("lightMagenta", FgLightMagenta), ("lightCyan", FgLightCyan),
   ("lightWhite", FgLightWhite)]

/-- Table `ExBgColors`, as the list of its entries. -/
def ExBgColors : List (String × Color) :=
  [("darkGray", BgDarkGray), ("lightRed", BgLightRed), ("lightGreen", BgLightGreen),
   ("lightYellow", BgLightYellow), ("lightBlue", BgLightBlue),
   ("lightMagenta", BgLightMagenta), ("lightCyan", BgLightCyan),
   ("lightWhite", BgLightWhite)]

/-- Table `Options`, as the list of its entries. -/
def Options : List (String × Color) :=
  [("reset", OpReset), ("bold", OpBold), ("fuzzy", OpFuzzy), ("italic", OpItalic),
   ("underscore", OpUnderscore), ("blink", OpBlink), ("reverse", OpReverse),
   ("concealed", OpConcealed)]

/-! ## The joined code string, as the specification words it -/

/-- The number a text of decimal digits denotes, read from the left. -/
def decimalValue (s : String) : Nat :=
  s.data.foldl (fun n d => 10 * n + (d.toNat - '0'.toNat)) 0

/-- The code string as the specification words it: the codes in decimal, in the
order given, with `;` between two neighbours. -/
def joinCodesSpec (codes : List Color) : String :=
  String.intercalate ";" (codes.map Color.String)

/-! ## Texts built from plain parts and escape sequences -/

/-- The escape sequence `ESC [ p m` followed by the text `a`. -/
def codeThen (seg : String × String) : String :=
  "\x1b[" ++ seg.1 ++ "m" ++ seg.2

/-- The text `A0 ++ ESC[p1 m ++ A1 ++ ... ++ ESC[pn m ++ An`, for the list of
the pairs `(p1, A1), ..., (pn, An)`. -/
def interleave (a0 : String) (segs : List (String × String)) : String :=
  a0 ++ String.join (segs.map codeThen)

/-- The text `A0 ++ A1 ++ ... ++ An` of the plain parts alone. -/
def plainParts (a0 : String) (segs : List (String × String)) : String :=
  a0 ++ String.join (segs.map Prod.snd)

/-! ## The pattern matcher -/

theorem isCodeChar_ESC : isCodeChar ESC = false := by decide

theorem isCodeChar_m : isCodeChar 'm' = false := by decide

theorem dropWhile_append_stop {p : Char → Bool} (l : List Char) {x : Char} (t : List Char)
    (hx : p x = false) : (l ++ x :: t).dropWhile p = l.dropWhile p ++ x :: t := by
  induction l with
  | nil => simp [List.dropWhile, hx]
  | cons a l ih =>
    by_cases ha : p a = true
    · simp [List.dropWhile, ha, ih]
    · simp [List.dropWhile, ha]

theorem dropWhile_all {p : Char → Bool} (l : List Char) (h : ∀ c ∈ l, p c = true)
    (t : List Char) : (l ++ t).dropWhile p = t.dropWhile p := by
  induction l with
  | nil => rfl
  | cons a l ih =>
    have ha : p a = true := h a (List.mem_cons_self a l)
    have hl : ∀ c ∈ l, p c = true := fun c hc => h c (List.mem_cons_of_mem a hc)
    simp [List.dropWhile, ha, ih hl]

/-- A match at the head is `ESC [`, a non-empty run of class characters, `m`. -/
theorem matchCodeAt_eq_some_iff (s r : List Char) :
    matchCodeAt s = some r ↔
      ∃ p, p ≠ [] ∧ (∀ c ∈ p, isCodeChar c = true) ∧ s = ESC :: '[' :: (p ++ 'm' :: r) := by
  constructor
  · intro h
    match s, h with
    | e :: b :: p :: rest, h =>
      simp only [matchCodeAt] at h
      split at h
      · rename_i hc
        simp only [Bool.and_eq_true, beq_iff_eq] at hc
        obtain ⟨⟨he, hb⟩, hp⟩ := hc
        split at h
        · rename_i t r' hd
          split at h
          · rename_i ht
            simp only [beq_iff_eq] at ht
            simp only [Option.some.injEq] at h
            subst h; subst ht; subst he; subst hb
            refine ⟨p :: rest.takeWhile isCodeChar, by simp, ?_, ?_⟩
            · intro c hc
              rcases List.mem_cons.1 hc with rfl | hc
              · exact hp
              · exact (List.mem_takeWhile_imp hc)
            · have := List.takeWhile_append_dropWhile isCodeChar rest
              rw [hd] at this
              simp [this]
          · exact absurd h (by simp)
        · exact absurd h (by simp)
      · exact absurd h (by simp)
  · rintro ⟨p, hne, hall, rfl⟩
    match p, hne, hall with
    | p0 :: p', _, hall =>
      have h0 : isCodeChar p0 = true := hall p0 (List.mem_cons_self _ _)
      have h1 : ∀ c ∈ p', isCodeChar c = true := fun c hc => hall c (List.mem_cons_of_mem _ hc)
      simp [matchCodeAt, h0, dropWhile_all p' h1, List.dropWhile, isCodeChar_m]

theorem matchCodeAt_length {s r : List Char} (h : matchCodeAt s = some r) :
    r.length < s.length := by
  obtain ⟨p, _, _, rfl⟩ := (matchCodeAt_eq_some_iff s r).1 h
  simp
  omega

theorem matchCodeAt_head {c : Char} {cs r : List Char} (h : matchCodeAt (c :: cs) = some r) :
    c = ESC := by
  obtain ⟨p, _, _, hs⟩ := (matchCodeAt_eq_some_iff _ r).1 h
  exact (List.cons.inj hs).1

theorem matchCodeAt_suffix {s r : List Char} (h : matchCodeAt s = some r) :
    ∃ pre, s = pre ++ r := by
  obtain ⟨p, _, _, rfl⟩ := (matchCodeAt_eq_some_iff s r).1 h
  exact ⟨ESC :: '[' :: (p ++ ['m']), by simp⟩

/-- Next to an `ESC` that follows it, a non-empty text has a match at its head
exactly when it has one on its own: a match cannot run over an `ESC`. -/
theorem matchCodeAt_append_ESC (c : Char) (cs t : List Char) :
    matchCodeAt ((c :: cs) ++ ESC :: t) = (matchCodeAt (c :: cs)).map (fun r => r ++ ESC :: t) := by
  match cs with
  | [] =>
    cases t with
    | nil => simp [matchCodeAt]
    | cons a t => simp [matchCodeAt, show (ESC == '[') = false by decide]
  | [b] => simp [matchCodeAt, isCodeChar_ESC]
  | b :: p :: rest =>
    simp only [List.cons_append, matchCodeAt]
    split
    · rw [dropWhile_append_stop rest t isCodeChar_ESC]
      cases hd : rest.dropWhile isCodeChar with
      | nil => simp [show (ESC == 'm') = false by decide]
      | cons a l =>
        simp only [List.cons_append]
        split <;> simp
    · simp

/-! ## The replacement loop -/

/-- The fuel of the length of the text is enough: more fuel changes nothing. -/
theorem replaceAllEmpty_fuel (fuel : Nat) :
    ∀ s : List Char, s.length ≤ fuel → replaceAllEmpty fuel s = stripChars s := by
  induction fuel using Nat.strong_induction_on with
  | _ fuel ih =>
    intro s hs
    match fuel, s, hs, ih with
    | 0, [], _, _ => rfl
    | fuel + 1, [], _, _ => rfl
    | fuel + 1, c :: cs, hs, ih =>
      have hlen : cs.length ≤ fuel := by simpa using hs
      show replaceAllEmpty (fuel + 1) (c :: cs) = replaceAllEmpty (cs.length + 1) (c :: cs)
      simp only [replaceAllEmpty]
      cases hm : matchCodeAt (c :: cs) with
      | none =>
        simp only
        rw [ih fuel (Nat.lt_succ_self _) cs hlen, ih cs.length (by omega) cs (le_refl _)]
      | some r =>
        simp only
        have hr : r.length < cs.length + 1 := by simpa using matchCodeAt_length hm
        rw [ih fuel (Nat.lt_succ_self _) r (by omega), ih cs.length (by omega) r (by omega)]

theorem stripChars_nil : stripChars [] = [] := rfl

theorem stripChars_match {c : Char} {cs r : List Char} (h : matchCodeAt (c :: cs) = some r) :
    stripChars (c :: cs) = stripChars r := by
  show replaceAllEmpty (cs.length + 1) (c :: cs) = stripChars r
  simp only [replaceAllEmpty, h]
  exact replaceAllEmpty_fuel _ r (by have := matchCodeAt_length h; simp at this; omega)

theorem stripChars_nomatch {c : Char} {cs : List Char} (h : matchCodeAt (c :: cs) = none) :
    stripChars (c :: cs) = c :: stripChars cs := by
  show replaceAllEmpty (cs.length + 1) (c :: cs) = c :: stripChars cs
  simp only [replaceAllEmpty, h]
  rfl

/-- Dropping one complete escape sequence at the head. -/
theorem stripChars_code (p t : List Char) (hne : p ≠ [])
    (hall : ∀ c ∈ p, isCodeChar c = true) :
    stripChars (ESC :: '[' :: (p ++ 'm' :: t)) = stripChars t :=
  stripChars_match ((matchCodeAt_eq_some_iff _ t).2 ⟨p, hne, hall, rfl⟩)

/-- A text without `ESC` is copied. -/
theorem stripChars_plain_append (a t : List Char) (ha : ∀ c ∈ a, c ≠ ESC) :
    stripChars (a ++ t) = a ++ stripChars t := by
  induction a with
  | nil => rfl
  | cons c a ih =>
    have hc : c ≠ ESC := ha c (List.mem_cons_self _ _)
    have hm : matchCodeAt (c :: (a ++ t)) = none := by
      cases h : matchCodeAt (c :: (a ++ t)) with
      | none => rfl
      | some r => exact absurd (matchCodeAt_head h) hc
    rw [List.cons_append, stripChars_nomatch hm, ih (fun d hd => ha d (List.mem_cons_of_mem _ hd))]
    rfl

/-- A text without a match is returned as it is. -/
theorem stripChars_of_hasCode_false (s : List Char) (h : hasCode s = false) :
    stripChars s = s := by
  induction s with
  | nil => rfl
  | cons c cs ih =>
    simp only [hasCode, Bool.or_eq_false_iff] at h
    have hm : matchCodeAt (c :: cs) = none := by
      cases hq : matchCodeAt (c :: cs) with
      | none => rfl
      | some r => rw [hq] at h; exact absurd h.1 (by simp)
    rw [stripChars_nomatch hm, ih h.2]

theorem stripChars_length_le (n : Nat) :
    ∀ s : List Char, s.length ≤ n → (stripChars s).length ≤ s.length := by
  induction n with
  | zero =>
    intro s hs
    have : s = [] := List.length_eq_zero.1 (Nat.le_zero.1 hs)
    subst this; exact le_refl _
  | succ n ih =>
    intro s hs
    match s, hs with
    | [], _ => exact le_refl _
    | c :: cs, hs =>
      have hlen : cs.length ≤ n := by simpa using hs
      cases hm : matchCodeAt (c :: cs) with
      | none =>
        rw [stripChars_nomatch hm]
        simpa using ih cs hlen
      | some r =>
        rw [stripChars_match hm]
        have hr : r.length < cs.length + 1 := by simpa using matchCodeAt_length hm
        have := ih r (by omega)
        simp only [List.length_cons]
        omega

/-- A text with a match gets strictly shorter. -/
theorem stripChars_length_lt (s : List Char) (h : hasCode s = true) :
    (stripChars s).length < s.length := by
  induction s with
  | nil => simp [hasCode] at h
  | cons c cs ih =>
    cases hm : matchCodeAt (c :: cs) with
    | none =>
      simp only [hasCode, hm, Option.isSome_none, Bool.false_or] at h
      rw [stripChars_nomatch hm]
      simpa using ih h
    | some r =>
      rw [stripChars_match hm]
      have hr : r.length < cs.length + 1 := by simpa using matchCodeAt_length hm
      have := stripChars_length_le r.length r (le_refl _)
      simp only [List.length_cons]
      omega

theorem stripChars_eq_self_iff (s : List Char) : stripChars s = s ↔ hasCode s = false := by
  constructor
  · intro h
    cases hc : hasCode s with
    | false => rfl
    | true =>
      have := stripChars_length_lt s hc
      rw [h] at this
      exact absurd this (lt_irrefl _)
  · exact stripChars_of_hasCode_false s

theorem escAllCodes_suffix (pre r : List Char) (h : escAllCodes (pre ++ r) = true) :
    escAllCodes r = true := by
  induction pre with
  | nil => exact h
  | cons a pre ih =>
    simp only [List.cons_append, escAllCodes, Bool.and_eq_true] at h
    exact ih h.2

/-- When every `ESC` starts an escape sequence, no `ESC` is left after the
replacement. -/
theorem stripChars_no_ESC (n : Nat) :
    ∀ s : List Char, s.length ≤ n → escAllCodes s = true → ∀ c ∈ stripChars s, c ≠ ESC := by
  induction n with
  | zero =>
    intro s hs _ c hc
    have : s = [] := List.length_eq_zero.1 (Nat.le_zero.1 hs)
    subst this
    simp [stripChars_nil] at hc
  | succ n ih =>
    intro s hs hall
    match s, hs, hall with
    | [], _, _ =>
      intro c hc
      simp [stripChars_nil] at hc
    | d :: ds, hs, hall =>
      have hlen : ds.length ≤ n := by simpa using hs
      cases hm : matchCodeAt (d :: ds) with
      | none =>
        simp only [escAllCodes, hm, Option.isSome_none, Bool.or_false, Bool.and_eq_true,
          bne_iff_ne, ne_eq] at hall
        rw [stripChars_nomatch hm]
        intro c hc
        rcases List.mem_cons.1 hc with rfl | hc
        · exact hall.1
        · exact ih ds hlen hall.2 c hc
      | some r =>
        rw [stripChars_match hm]
        have hr : r.length < ds.length + 1 := by simpa using matchCodeAt_length hm
        obtain ⟨pre, hpre⟩ := matchCodeAt_suffix hm
        exact ih r (by omega) (escAllCodes_suffix pre r (hpre ▸ hall))

theorem hasCode_false_of_no_ESC (s : List Char) (h : ∀ c ∈ s, c ≠ ESC) : hasCode s = false := by
  induction s with
  | nil => rfl
  | cons c cs ih =>
    have hm : matchCodeAt (c :: cs) = none := by
      cases hq : matchCodeAt (c :: cs) with
      | none => rfl
      | some r => exact absurd (matchCodeAt_head hq) (h c (List.mem_cons_self _ _))
    simp [hasCode, hm, ih (fun d hd => h d (List.mem_cons_of_mem _ hd))]

theorem ClearCode_data (str : String) : (ClearCode str).data = stripChars str.data := rfl

theorem ClearCode_eq_self_iff (str : String) :
    ClearCode str = str ↔ hasCode str.data = false := by
  rw [← stripChars_eq_self_iff, String.ext_iff, ClearCode_data]

/-- A text without a match, followed by an `ESC`: the text is copied, since no
match can start in it and run over the `ESC`. -/
theorem stripChars_append_ESC (m t : List Char) (h : hasCode m = false) :
    stripChars (m ++ ESC :: t) = m ++ stripChars (ESC :: t) := by
  induction m with
  | nil => rfl
  | cons c cs ih =>
    simp only [hasCode, Bool.or_eq_false_iff] at h
    have hm : matchCodeAt (c :: cs) = none := by
      cases hq : matchCodeAt (c :: cs) with
      | none => rfl
      | some r => rw [hq] at h; exact absurd h.1 (by simp)
    have hm2 : matchCodeAt (c :: (cs ++ ESC :: t)) = none := by
      have := matchCodeAt_append_ESC c cs t
      rw [hm] at this
      simpa using this
    rw [List.cons_append, stripChars_nomatch hm2, ih h.2]
    rfl

/-! ## Formatting -/

theorem Sprint_single (M : String) : Sprint [M] = M := by
  apply String.ext
  simp [Sprint]

theorem Sprintf_FullColorTpl (code message : String) :
    Sprintf FullColorTpl.data [code, message] = "\x1b[" ++ code ++ "m" ++ message ++ "\x1b[0m" := by
  apply String.ext
  simp [Sprintf, FullColorTpl]

theorem Sprintf_FullColorTpl_data (code message : String) :
    (Sprintf FullColorTpl.data [code, message]).data =
      ESC :: '[' :: (code.data ++ 'm' :: (message.data ++ ESC :: ['[', '0', 'm'])) := by
  simp [Sprintf, FullColorTpl, ESC]

theorem Sprintf_SettingTpl (code : String) :
    Sprintf SettingTpl.data [code] = "\x1b[" ++ code ++ "m" := by
  apply String.ext
  simp [Sprintf, SettingTpl]

theorem RenderCode_enabled (env : Env) (C : String) (args : List String) (hC : C ≠ "")
    (hE : env.Enable = true) (hS : env.isSupportColor = true) :
    RenderCode env C args = Sprintf FullColorTpl.data [C, Sprint args] := by
  have h : C.isEmpty = false := by
    cases hq : C.isEmpty with
    | false => rfl
    | true => exact absurd ((String.isEmpty_iff C).1 hq) hC
  simp [RenderCode, h, hE, hS]

theorem RenderCode_empty (env : Env) (args : List String) :
    RenderCode env "" args = Sprint args := by
  simp [RenderCode, show "".isEmpty = true by decide]

theorem RenderCode_off (env : Env) (C : String) (args : List String) (hC : C ≠ "")
    (h : env.Enable = false ∨ env.isSupportColor = false) :
    RenderCode env C args = ClearCode (Sprint args) := by
  have hq : C.isEmpty = false := by
    cases hq : C.isEmpty with
    | false => rfl
    | true => exact absurd ((String.isEmpty_iff C).1 hq) hC
  rcases h with h | h <;> simp [RenderCode, hq, h]

theorem foldl_append_singleton (f : Color → String) (colors : List Color) (acc : List String) :
    colors.foldl (fun (codes : List String) color => codes ++ [f color]) acc =
      acc ++ colors.map f := by
  induction colors generalizing acc with
  | nil => simp
  | cons c cs ih => simp [ih]

theorem intercalate_go_eq_foldl (sep : String) (rest : List String) (e : String) :
    String.intercalate.go e sep rest = rest.foldl (fun b s => b ++ sep ++ s) e := by
  induction rest generalizing e with
  | nil => rfl
  | cons a rest ih => simp [String.intercalate.go, ih]

theorem stringsJoin_eq_intercalate (elems : List String) (sep : String) :
    stringsJoin elems sep = String.intercalate sep elems := by
  match elems with
  | [] => rfl
  | [e] => rfl
  | e :: f :: rest =>
    simp [stringsJoin, String.intercalate, intercalate_go_eq_foldl]

theorem foldl_sep_eq (sep : String) (rest : List String) (e : String) :
    rest.foldl (fun b s => b ++ sep ++ s) e = e ++ String.join (rest.map fun s => sep ++ s) := by
  induction rest generalizing e with
  | nil => apply String.ext; simp
  | cons a rest ih =>
    rw [List.foldl_cons, ih]
    apply String.ext
    simp

theorem colors2code_eq (colors : List Color) :
    colors2code colors = String.intercalate ";" (colors.map Color.String) := by
  cases colors with
  | nil => rfl
  | cons c cs =>
    simp only [colors2code, List.length_cons, Nat.succ_ne_zero, beq_iff_eq, if_false]
    rw [foldl_append_singleton Color.String (c :: cs) [], List.nil_append,
      stringsJoin_eq_intercalate]

theorem codeThen_data (seg : String × String) :
    (codeThen seg).data = ESC :: '[' :: (seg.1.data ++ 'm' :: seg.2.data) := by
  simp [codeThen, ESC]

/-- The replacement on a sequence of escape sequences, each followed by a text
without `ESC`: the texts are left, in order. -/
theorem stripChars_segments (segs : List (String × String))
    (hs : ∀ seg ∈ segs, seg.1 ≠ "" ∧ (∀ c ∈ seg.1.data, isCodeChar c = true) ∧
      ∀ c ∈ seg.2.data, c ≠ ESC) :
    stripChars ((segs.map fun seg => (codeThen seg).data).flatten) =
      (segs.map fun seg => seg.2.data).flatten := by
  induction segs with
  | nil => rfl
  | cons seg segs ih =>
    obtain ⟨hne, hp, ha⟩ := hs seg (List.mem_cons_self _ _)
    have hd : seg.1.data ≠ [] := fun h => hne (String.ext h)
    have ih2 := ih (fun x hx => hs x (List.mem_cons_of_mem _ hx))
    simp only [List.map_cons, List.flatten_cons, codeThen_data, List.cons_append,
      List.append_assoc]
    simp only [codeThen_data] at ih2
    rw [stripChars_code _ _ hd hp, stripChars_plain_append _ _ ha, ih2]

theorem RenderString_enabled (env : Env) (C S : String) (hC : C ≠ "") (hS : S ≠ "")
    (hE : env.Enable = true) (hSup : env.isSupportColor = true) :
    RenderString env C S = Sprintf FullColorTpl.data [C, S] := by
  have h : C.isEmpty = false := by
    cases hq : C.isEmpty with
    | false => rfl
    | true => exact absurd ((String.isEmpty_iff C).1 hq) hC
  simp [RenderString, h, hS, hE, hSup]

/-! ## Claims -/

/-- C1 (as stated, refuted): stripping is not idempotent for every text.  In
`ESC [ ESC [ 0 m 3 m` the only match is the inner `ESC [ 0 m`; removing it
joins `ESC [` with `3 m` into a new escape sequence, which a second pass
removes. -/
theorem second_pass_strips_more :
    ClearCode "\x1b[\x1b[0m3m" = "\x1b[3m" ∧
      ClearCode (ClearCode "\x1b[\x1b[0m3m") = "" ∧
      ClearCode (ClearCode "\x1b[\x1b[0m3m") ≠ ClearCode "\x1b[\x1b[0m3m" := by
  decide

/-- C1 (amended): for every text `T`, `ClearCode (ClearCode T) = ClearCode T`
holds exactly when `ClearCode T` contains no match of the pattern; and this is
the case whenever every `ESC` character of `T` starts a match of the pattern. -/
theorem ClearCode_idempotent_iff (T : String) :
    (ClearCode (ClearCode T) = ClearCode T ↔ hasCode (ClearCode T).data = false) ∧
      (escAllCodes T.data = true → ClearCode (ClearCode T) = ClearCode T) := by
  refine ⟨ClearCode_eq_self_iff (ClearCode T), fun h => ?_⟩
  rw [ClearCode_eq_self_iff, ClearCode_data]
  exact hasCode_false_of_no_ESC _ (stripChars_no_ESC _ _ (le_refl _) h)

/-- A text with two escape sequences, each `ESC` starting one: stripped once,
a second pass changes nothing. -/
theorem ClearCode_idempotent_iff_witness :
    escAllCodes "a\x1b[1;31mb\x1b[0mc".data = true ∧
      ClearCode (ClearCode "a\x1b[1;31mb\x1b[0mc") = ClearCode "a\x1b[1;31mb\x1b[0mc" :=
  ⟨by decide, (ClearCode_idempotent_iff "a\x1b[1;31mb\x1b[0mc").2 (by decide)⟩

/-- C2 (as stated, refuted): with the empty code the message is returned before
the switch is looked at, so a disabled `RenderCode` does not strip it. -/
theorem empty_code_disabled_unstripped :
    RenderCode ⟨false, false, true, ""⟩ "" ["\x1b[0m"] = "\x1b[0m" ∧
      ClearCode "\x1b[0m" = "" ∧
      RenderCode ⟨false, false, true, ""⟩ "" ["\x1b[0m"] ≠ ClearCode "\x1b[0m" := by
  decide

/-- C2 (amended): for every non-empty code string `C`, when `Enable` is false,
`RenderCode(C, args...)` is `ClearCode` of the message `Sprint(args...)`; for one
message `M` it is `ClearCode(M)`, and so it is after `Disable()`. -/
theorem RenderCode_disabled (env : Env) (C : String) (hC : C ≠ "")
    (hE : env.Enable = false) :
    (∀ args : List String, RenderCode env C args = ClearCode (Sprint args)) ∧
      (∀ M : String, RenderCode env C [M] = ClearCode M) ∧
      (∀ (env0 : Env) (M : String), RenderCode (Disable env0) C [M] = ClearCode M) := by
  refine ⟨fun args => RenderCode_off env C args hC (Or.inl hE), fun M => ?_, fun env0 M => ?_⟩
  · rw [RenderCode_off env C [M] hC (Or.inl hE), Sprint_single]
  · rw [RenderCode_off (Disable env0) C [M] hC (Or.inl rfl), Sprint_single]

/-- Code `31`, disabled: the message comes back stripped. -/
theorem RenderCode_disabled_witness :
    ("31" : String) ≠ "" ∧ (Env.mk false false true "").Enable = false ∧
      RenderCode ⟨false, false, true, ""⟩ "31" ["a\x1b[1mb"] = ClearCode "a\x1b[1mb" :=
  ⟨by decide, rfl,
    (RenderCode_disabled ⟨false, false, true, ""⟩ "31" (by decide) rfl).2.1 "a\x1b[1mb"⟩

/-- C3 (as stated, refuted): a code string with a character outside the class
`[0-9;?]` gives a prefix `ESC [ x m` that the pattern does not match, so it is
left in the text. -/
theorem roundtrip_fails_on_bad_code :
    RenderCode ⟨true, false, true, ""⟩ "x" ["hi"] = "\x1b[xmhi\x1b[0m" ∧
      hasCode "hi".data = false ∧
      ClearCode (RenderCode ⟨true, false, true, ""⟩ "x" ["hi"]) = "\x1b[xmhi" ∧
      ClearCode (RenderCode ⟨true, false, true, ""⟩ "x" ["hi"]) ≠ "hi" := by
  decide

/-- C3 (amended): when rendering is enabled and color is supported, for every
code string `C` made only of characters of the class `[0-9;?]` (the empty one
included) and every message `M` without a match of the pattern,
`ClearCode(RenderCode(C, M)) = M`. -/
theorem ClearCode_RenderCode_roundtrip (env : Env) (C M : String)
    (hE : env.Enable = true) (hS : env.isSupportColor = true)
    (hC : ∀ c ∈ C.data, isCodeChar c = true) (hM : hasCode M.data = false) :
    ClearCode (RenderCode env C [M]) = M := by
  by_cases hne : C = ""
  · subst hne
    rw [RenderCode_empty, Sprint_single]
    exact (ClearCode_eq_self_iff M).2 hM
  · have hd : C.data ≠ [] := fun h => hne (String.ext h)
    rw [RenderCode_enabled env C [M] hne hE hS, Sprint_single]
    apply String.ext
    rw [ClearCode_data, Sprintf_FullColorTpl_data, stripChars_code _ _ hd hC,
      stripChars_append_ESC _ _ hM]
    have : stripChars (ESC :: ['[', '0', 'm']) = [] := by decide
    rw [this, List.append_nil]

/-- Code `1;32` and a message that starts with `0m` and ends with the partial
sequence `ESC [ 3`: stripping the rendered text gives the message back. -/
theorem ClearCode_RenderCode_roundtrip_witness :
    ClearCode (RenderCode ⟨true, false, true, ""⟩ "1;32" ["0m and \x1b[3"]) = "0m and \x1b[3" :=
  ClearCode_RenderCode_roundtrip ⟨true, false, true, ""⟩ "1;32" "0m and \x1b[3" rfl rfl (by decide) (by decide)

/-- C4 (the code at the boundary): `IsValid` is `c < 107`, so it holds exactly
for the codes up to 106; `Color(107).IsValid()` is false, against the claimed
`c <= 107`. -/
theorem IsValid_iff_lt_107 :
    Color.IsValid 107 = false ∧ Color.IsValid 106 = true ∧ Color.IsValid 108 = false ∧
      ∀ c : Color, Color.IsValid c = true ↔ c.val < 107 := by
  refine ⟨by decide, by decide, by decide, fun c => ?_⟩
  exact ⟨fun h => (of_decide_eq_true h : c < 107), fun h => decide_eq_true (h : c < 107)⟩

/-- C5 (the code's constants): the block of the light background colors starts
at `iota + 99`, so its constants are 99 to 106, not 100 to 107, and `ExBgColors`
holds these values; the alias `BgGray` is 100, which is `BgLightRed`. -/
theorem ExBg_constants :
    BgDarkGray = 99 ∧ BgLightRed = 100 ∧ BgLightGreen = 101 ∧ BgLightYellow = 102 ∧
      BgLightBlue = 103 ∧ BgLightMagenta = 104 ∧ BgLightCyan = 105 ∧ BgLightWhite = 106 ∧
      BgGray = 100 ∧ BgDarkGray ≠ 100 ∧ BgLightWhite ≠ 107 ∧
      ExBgColors = [("darkGray", 99), ("lightRed", 100), ("lightGreen", 101),
        ("lightYellow", 102), ("lightBlue", 103), ("lightMagenta", 104),
        ("lightCyan", 105), ("lightWhite", 106)] := by
  decide

set_option maxRecDepth 100000 in
/-- C6: `colors2code` of no color is the empty string; of any list it is the
specification's join, the renderings of the colors in the order given with `;`
between neighbours: the first rendering, then `;` and the rendering for each
later color, so no separator leads or trails.  A rendering is a non-empty text
of decimal digits that denotes the value of the color. -/
theorem colors2code_spec :
    colors2code [] = "" ∧
      (∀ colors : List Color, colors2code colors = joinCodesSpec colors) ∧
      (∀ (c : Color) (cs : List Color), colors2code (c :: cs) =
        Color.String c ++ String.join (cs.map fun d => ";" ++ Color.String d)) ∧
      (∀ c : Color, (Color.String c).data ≠ [] ∧
        (Color.String c).data.all Char.isDigit = true ∧
        decimalValue (Color.String c) = c.val) := by
  refine ⟨rfl, colors2code_eq, fun c cs => ?_, by decide⟩
  simp only [colors2code, List.length_cons, Nat.succ_ne_zero, beq_iff_eq, if_false]
  rw [foldl_append_singleton Color.String (c :: cs) [], List.nil_append]
  cases cs with
  | nil => apply String.ext; simp [stringsJoin]
  | cons d ds =>
    simp only [List.map_cons, stringsJoin]
    rw [← List.map_cons, foldl_sep_eq, List.map_map]
    rfl

/-- C7 (the code on no color): enabled and outside `cmd.exe`, `Set()` formats
`SettingTpl` with the empty code string and writes the three bytes `ESC [ m`. -/
theorem Set_no_colors (winSet : Env → List Color → Env × PrintResult)
    (sup : Bool) (out : String) :
    colors2code [] = "" ∧
      Set winSet ⟨true, false, sup, out⟩ [] = (⟨true, false, sup, out ++ "\x1b[m"⟩, (3, none)) ∧
      Set winSet ⟨true, false, sup, ""⟩ [] ≠ (⟨true, false, sup, ""⟩, (0, none)) := by
  have key : ∀ o : String, Set winSet ⟨true, false, sup, o⟩ [] =
      (⟨true, false, sup, o ++ "\x1b[m"⟩, (3, none)) := by
    intro o
    simp only [Set, Printf, Bool.not_true, Bool.false_eq_true, if_false]
    rw [show colors2code [] = "" from rfl, Sprintf_SettingTpl]
    rfl
  refine ⟨rfl, key out, fun h => ?_⟩
  rw [key ""] at h
  have h3 : (3 : Nat) = 0 := congrArg (fun r => r.2.1) h
  exact absurd h3 (by decide)

/-- C8: for texts `A0 .. An` without `ESC` and non-empty parameter strings
`p1 .. pn` over the class `[0-9;?]`, `ClearCode` of
`A0 ++ ESC[p1 m ++ A1 ++ ... ++ ESC[pn m ++ An` is `A0 ++ A1 ++ ... ++ An`. -/
theorem ClearCode_interleave (a0 : String) (segs : List (String × String))
    (h0 : ∀ c ∈ a0.data, c ≠ ESC)
    (hs : ∀ seg ∈ segs, seg.1 ≠ "" ∧ (∀ c ∈ seg.1.data, isCodeChar c = true) ∧
      ∀ c ∈ seg.2.data, c ≠ ESC) :
    ClearCode (interleave a0 segs) = plainParts a0 segs ∧
      ClearCode "\x1b[36;1mText\x1b[0m" = "Text" ∧
      ∀ T : String, hasCode T.data = false → ClearCode T = T := by
  refine ⟨?_, by decide, fun T hT => (ClearCode_eq_self_iff T).2 hT⟩
  apply String.ext
  simp only [ClearCode_data, interleave, plainParts, String.data_append, String.data_join,
    List.map_map]
  rw [stripChars_plain_append _ _ h0]
  exact congrArg _ (stripChars_segments segs hs)

/-- Three escape sequences between the plain parts `a`, `Text`, ` b` and the
empty text. -/
theorem ClearCode_interleave_witness :
    interleave "a" [("36;1", "Text"), ("0", " b"), ("?25", "")] =
        "a\x1b[36;1mText\x1b[0m b\x1b[?25m" ∧
      ClearCode "a\x1b[36;1mText\x1b[0m b\x1b[?25m" = "aText b" := by
  have h := (ClearCode_interleave "a" [("36;1", "Text"), ("0", " b"), ("?25", "")]
    (by decide) (by decide)).1
  have e : interleave "a" [("36;1", "Text"), ("0", " b"), ("?25", "")] =
      "a\x1b[36;1mText\x1b[0m b\x1b[?25m" := by decide
  rw [e] at h
  exact ⟨e, h.trans (by decide)⟩

/-- C9: `RenderCode("", M) = M` whatever the flags; for a non-empty code `C`,
enabled with color supported, `RenderCode(C, M)` is
`ESC[ ++ C ++ m ++ M ++ ESC[0m`, and disabled or without color support it is
`ClearCode(M)`; code `32` and message `hi` give `ESC[32mhiESC[0m`. -/
theorem RenderCode_contract (env : Env) (C M : String) :
    RenderCode env "" [M] = M ∧
      (C ≠ "" → env.Enable = true → env.isSupportColor = true →
        RenderCode env C [M] = "\x1b[" ++ C ++ "m" ++ M ++ "\x1b[0m") ∧
      (C ≠ "" → (env.Enable = false ∨ env.isSupportColor = false) →
        RenderCode env C [M] = ClearCode M) ∧
      RenderCode ⟨true, false, true, ""⟩ "32" ["hi"] = "\x1b[32mhi\x1b[0m" := by
  refine ⟨?_, fun hC hE hS => ?_, fun hC h => ?_, by decide⟩
  · rw [RenderCode_empty, Sprint_single]
  · rw [RenderCode_enabled env C [M] hC hE hS, Sprint_single, Sprintf_FullColorTpl]
  · rw [RenderCode_off env C [M] hC h, Sprint_single]

/-- The call of the usage comment, `RenderCode("3;32;45", "some message")`. -/
theorem RenderCode_contract_witness :
    RenderCode ⟨true, false, true, ""⟩ "3;32;45" ["some message"] =
      "\x1b[" ++ "3;32;45" ++ "m" ++ "some message" ++ "\x1b[0m" :=
  (RenderCode_contract ⟨true, false, true, ""⟩ "3;32;45" "some message").2.1 (by decide) rfl rfl

/-- C10: for a non-empty code `C` and a non-empty string `S`, enabled with color
supported, `RenderString(C, S)` is `ESC[ ++ C ++ m ++ S ++ ESC[0m`; code `35;1`
and string `alert` give `ESC[35;1malertESC[0m`. -/
theorem RenderString_enabled_eq (env : Env) (C S : String) (hC : C ≠ "") (hS : S ≠ "")
    (hE : env.Enable = true) (hSup : env.isSupportColor = true) :
    RenderString env C S = "\x1b[" ++ C ++ "m" ++ S ++ "\x1b[0m" ∧
      RenderString ⟨true, false, true, ""⟩ "35;1" "alert" = "\x1b[35;1malert\x1b[0m" := by
  refine ⟨?_, by decide⟩
  rw [RenderString_enabled env C S hC hS hE hSup, Sprintf_FullColorTpl]

/-- The call of the usage comment, `RenderString("3;32;45", "a message")`. -/
theorem RenderString_enabled_eq_witness :
    RenderString ⟨true, false, true, ""⟩ "3;32;45" "a message" =
      "\x1b[" ++ "3;32;45" ++ "m" ++ "a message" ++ "\x1b[0m" :=
  (RenderString_enabled_eq ⟨true, false, true, ""⟩ "3;32;45" "a message"
    (by decide) (by decide) rfl rfl).1

/-! ## Further lemmas on rendering and printing -/

theorem RenderString_off (env : Env) (C S : String) (hC : C ≠ "") (hS : S ≠ "")
    (h : env.Enable = false ∨ env.isSupportColor = false) :
    RenderString env C S = ClearCode S := by
  have hq : C.isEmpty = false := by
    cases hq : C.isEmpty with
    | false => rfl
    | true => exact absurd ((String.isEmpty_iff C).1 hq) hC
  rcases h with h | h <;> simp [RenderString, hq, hS, h]

theorem RenderString_empty_code (env : Env) (S : String) : RenderString env "" S = S := by
  simp [RenderString, show "".isEmpty = true by decide]

theorem RenderString_empty_str (env : Env) (C : String) : RenderString env C "" = "" := by
  simp [RenderString]

theorem Set_enabled (winSet : Env → List Color → Env × PrintResult) (env : Env)
    (colors : List Color) (hE : env.Enable = true) (hW : env.isLikeInCmd = false) :
    Set winSet env colors =
      ({ env with stdout := env.stdout ++ ("\x1b[" ++ colors2code colors ++ "m") },
        (("\x1b[" ++ colors2code colors ++ "m").utf8ByteSize, none)) := by
  simp only [Set, Printf, hE, hW, Bool.not_true, Bool.false_eq_true, if_false]
  rw [Sprintf_SettingTpl]

theorem Reset_enabled (winReset : Env → Env × PrintResult) (env : Env)
    (hE : env.Enable = true) (hW : env.isLikeInCmd = false) :
    Reset winReset env = ({ env with stdout := env.stdout ++ "\x1b[0m" }, (4, none)) := by
  simp only [Reset, Print, hE, hW, Bool.not_true, Bool.false_eq_true, if_false]
  rfl

theorem Set_disabled (winSet : Env → List Color → Env × PrintResult) (env : Env)
    (colors : List Color) (hE : env.Enable = false) :
    Set winSet env colors = (env, (0, none)) := by
  simp [Set, hE]

theorem Reset_disabled (winReset : Env → Env × PrintResult) (env : Env)
    (hE : env.Enable = false) :
    Reset winReset env = (env, (0, none)) := by
  simp [Reset, hE]

/-! ## Code strings of colors -/

set_option maxRecDepth 100000 in
/-- The rendering of a color is a non-empty text of decimal digits that denotes
its value. -/
theorem Color_String_digits : ∀ c : Color, (Color.String c).data ≠ [] ∧
    (Color.String c).data.all Char.isDigit = true ∧
    decimalValue (Color.String c) = c.val := by
  decide

theorem Color_String_ne_empty (c : Color) : Color.String c ≠ "" := fun h =>
  (Color_String_digits c).1 (by rw [h])

theorem Color_String_isDigit (c : Color) : ∀ x ∈ (Color.String c).data, x.isDigit = true := by
  have h := (Color_String_digits c).2.1
  rw [List.all_eq_true] at h
  exact h

theorem Color_String_injective {c d : Color} (h : Color.String c = Color.String d) : c = d := by
  have hc := (Color_String_digits c).2.2
  have hd := (Color_String_digits d).2.2
  rw [h] at hc
  exact Fin.ext (hc.symm.trans hd)

theorem isCodeChar_of_isDigit {x : Char} (h : x.isDigit = true) : isCodeChar x = true := by
  simp [isCodeChar, h]

theorem colors2code_cons (c : Color) (cs : List Color) :
    colors2code (c :: cs) =
      Color.String c ++ String.join (cs.map fun d => ";" ++ Color.String d) := by
  simp only [colors2code, List.length_cons, Nat.succ_ne_zero, beq_iff_eq, if_false]
  rw [foldl_append_singleton Color.String (c :: cs) [], List.nil_append]
  cases cs with
  | nil => apply String.ext; simp [stringsJoin]
  | cons d ds =>
    simp only [List.map_cons, stringsJoin]
    rw [← List.map_cons, foldl_sep_eq, List.map_map]
    rfl

theorem colors2code_cons_data (c : Color) (cs : List Color) :
    (colors2code (c :: cs)).data =
      (Color.String c).data ++ (cs.map fun d => ';' :: (Color.String d).data).flatten := by
  rw [colors2code_cons]
  simp [Function.comp_def]

theorem colors2code_isCodeChar (colors : List Color) :
    ∀ x ∈ (colors2code colors).data, isCodeChar x = true := by
  cases colors with
  | nil => intro x hx; simp [colors2code] at hx
  | cons c cs =>
    rw [colors2code_cons_data]
    intro x hx
    rcases List.mem_append.1 hx with hx | hx
    · exact isCodeChar_of_isDigit (Color_String_isDigit c x hx)
    · obtain ⟨l, hl, hxl⟩ := List.mem_flatten.1 hx
      obtain ⟨d, _, rfl⟩ := List.mem_map.1 hl
      rcases List.mem_cons.1 hxl with rfl | hxd
      · decide
      · exact isCodeChar_of_isDigit (Color_String_isDigit d x hxd)

/-- The wrapped text `ESC[ C m M ESC[0m` with `C` over the class and `M` without a
match is stripped to `M`. -/
theorem stripChars_wrapped (C M : String) (hne : C ≠ "")
    (hC : ∀ c ∈ C.data, isCodeChar c = true) (hM : hasCode M.data = false) :
    ClearCode (Sprintf FullColorTpl.data [C, M]) = M := by
  have hd : C.data ≠ [] := fun h => hne (String.ext h)
  apply String.ext
  rw [ClearCode_data, Sprintf_FullColorTpl_data, stripChars_code _ _ hd hC,
    stripChars_append_ESC _ _ hM]
  have : stripChars (ESC :: ['[', '0', 'm']) = [] := by decide
  rw [this, List.append_nil]

/-- Two texts that start with a run of digits and go on with something that is
not a digit, if anything: equal texts have equal runs and equal rests. -/
theorem digits_run_unique (a b ra rb : List Char)
    (ha : ∀ x ∈ a, x.isDigit = true) (hb : ∀ x ∈ b, x.isDigit = true)
    (hra : ∀ x t, ra = x :: t → x.isDigit = false)
    (hrb : ∀ x t, rb = x :: t → x.isDigit = false)
    (h : a ++ ra = b ++ rb) : a = b ∧ ra = rb := by
  induction a generalizing b with
  | nil =>
    cases b with
    | nil => exact ⟨rfl, h⟩
    | cons y b =>
      have hy := hb y (List.mem_cons_self _ _)
      rw [hra y (b ++ rb) h] at hy
      exact absurd hy (by simp)
  | cons x a ih =>
    cases b with
    | nil =>
      have hx := ha x (List.mem_cons_self _ _)
      rw [hrb x (a ++ ra) h.symm] at hx
      exact absurd hx (by simp)
    | cons y b =>
      obtain ⟨hxy, hrest⟩ := List.cons.inj h
      obtain ⟨hab, hr⟩ := ih b (fun z hz => ha z (List.mem_cons_of_mem _ hz))
        (fun z hz => hb z (List.mem_cons_of_mem _ hz)) hrest
      exact ⟨by rw [hxy, hab], hr⟩

/-- What follows the first rendering in a code string is empty or starts with
the separator. -/
theorem codeTail_head (cs : List Color) :
    ∀ x t, (cs.map fun d => ';' :: (Color.String d).data).flatten = x :: t →
      x.isDigit = false := by
  intro x t h
  cases cs with
  | nil => simp at h
  | cons d ds =>
    simp only [List.map_cons, List.flatten_cons, List.cons_append] at h
    rw [← (List.cons.inj h).1]
    decide

theorem codeTail_injective (xs : List Color) : ∀ ys : List Color,
    (xs.map fun d => ';' :: (Color.String d).data).flatten =
      (ys.map fun d => ';' :: (Color.String d).data).flatten → xs = ys := by
  induction xs with
  | nil =>
    intro ys h
    cases ys with
    | nil => rfl
    | cons y ys => simp at h
  | cons x xs ih =>
    intro ys h
    cases ys with
    | nil => simp at h
    | cons y ys =>
      simp only [List.map_cons, List.flatten_cons, List.cons_append] at h
      obtain ⟨hd, ht⟩ := digits_run_unique _ _ _ _ (Color_String_isDigit x)
        (Color_String_isDigit y) (codeTail_head xs) (codeTail_head ys) (List.cons.inj h).2
      rw [Color_String_injective (String.ext hd), ih ys ht]

theorem colors2code_cons_ne_empty (c : Color) (cs : List Color) : colors2code (c :: cs) ≠ "" :=
  fun h => (Color_String_digits c).1 (by
    have := colors2code_cons_data c cs
    rw [h] at this
    exact (List.append_eq_nil.1 this.symm).1)

theorem colors2code_inj (xs ys : List Color) (h : colors2code xs = colors2code ys) :
    xs = ys := by
  cases xs with
  | nil =>
    cases ys with
    | nil => rfl
    | cons y ys => exact absurd h.symm (colors2code_cons_ne_empty y ys)
  | cons x xs =>
    cases ys with
    | nil => exact absurd h (colors2code_cons_ne_empty x xs)
    | cons y ys =>
      have hd := congrArg String.data h
      rw [colors2code_cons_data, colors2code_cons_data] at hd
      obtain ⟨h1, h2⟩ := digits_run_unique _ _ _ _ (Color_String_isDigit x)
        (Color_String_isDigit y) (codeTail_head xs) (codeTail_head ys) hd
      rw [Color_String_injective (String.ext h1), codeTail_injective xs ys h2]

/-! ## Claims, continued -/

/-- C11: for a non-empty code `C` and a non-empty string `S`, when rendering is
disabled (as after `Disable()`) or color is not supported, `RenderString(C, S)`
is `ClearCode(S)`: nothing is wrapped around the string; with code `35;1` and
string `alert` the result is `alert`. -/
theorem RenderString_disabled (env : Env) (C S : String) (hC : C ≠ "") (hS : S ≠ "") :
    ((env.Enable = false ∨ env.isSupportColor = false) → RenderString env C S = ClearCode S) ∧
      RenderString (Disable env) C S = ClearCode S ∧
      RenderString (Disable ⟨true, false, true, ""⟩) "35;1" "alert" = "alert" ∧
      RenderString ⟨true, false, false, ""⟩ "35;1" "alert" = "alert" := by
  exact ⟨RenderString_off env C S hC hS, RenderString_off (Disable env) C S hC hS (Or.inl rfl),
    by decide, by decide⟩

/-- Code `1;31` and a string that holds an escape sequence of its own, color
not supported: the string comes back stripped and unwrapped. -/
theorem RenderString_disabled_witness :
    RenderString ⟨true, false, false, ""⟩ "1;31" "a\x1b[4mb" = ClearCode "a\x1b[4mb" ∧
      ClearCode "a\x1b[4mb" = "ab" :=
  ⟨(RenderString_disabled ⟨true, false, false, ""⟩ "1;31" "a\x1b[4mb" (by decide)
    (by decide)).1 (Or.inr rfl), by decide⟩

/-- C12: `RenderString` hands its input back on an empty code or an empty
string, whatever the flags are: `RenderString("", S) = S`, with no stripping
even when `S` holds an escape sequence, and `RenderString(C, "") = ""`. -/
theorem RenderString_passthrough :
    (∀ (env : Env) (S : String), RenderString env "" S = S) ∧
      (∀ (env : Env) (C : String), RenderString env C "" = "") ∧
      (∀ env : Env, RenderString env "" "\x1b[1mbold\x1b[0m" = "\x1b[1mbold\x1b[0m") ∧
      ClearCode "\x1b[1mbold\x1b[0m" = "bold" :=
  ⟨RenderString_empty_code, RenderString_empty_str,
    fun env => RenderString_empty_code env _, by decide⟩

/-- C13: `ClearCode` returns a text without a match of the pattern as it is, and
only such a text; `ESC [ m` (no parameter), `ESC [ 3 1` (no final `m`) and
`ESC [ 1 ; 3 x m` (a character outside the class before `m`) hold no match and
come back unchanged. -/
theorem ClearCode_unmatched (T : String) :
    (hasCode T.data = false → ClearCode T = T) ∧
      (ClearCode T = T → hasCode T.data = false) ∧
      (hasCode "\x1b[m".data = false ∧ ClearCode "\x1b[m" = "\x1b[m") ∧
      (hasCode "\x1b[31".data = false ∧ ClearCode "\x1b[31" = "\x1b[31") ∧
      (hasCode "\x1b[1;3xm".data = false ∧ ClearCode "\x1b[1;3xm" = "\x1b[1;3xm") := by
  exact ⟨(ClearCode_eq_self_iff T).2, (ClearCode_eq_self_iff T).1, by decide, by decide,
    by decide⟩

/-- A text with three malformed sequences in a row and plain text around. -/
theorem ClearCode_unmatched_witness :
    ClearCode "a\x1b[m\x1b[31 \x1b[1;3xm\x1b]0m b" = "a\x1b[m\x1b[31 \x1b[1;3xm\x1b]0m b" :=
  (ClearCode_unmatched "a\x1b[m\x1b[31 \x1b[1;3xm\x1b]0m b").1 (by decide)

/-- C14: with the standard output as a string of the state, enabled and outside
`cmd.exe`, `Set(c1..cn)` with `n >= 1` appends exactly
`ESC[ ++ colors2code(c1..cn) ++ m` and changes nothing else, and `Reset()`
appends exactly `ESC[0m`; when disabled, `Set` and `Reset` leave the state as it
is and return `(0, nil)`. -/
theorem Set_Reset_output (winSet : Env → List Color → Env × PrintResult)
    (winReset : Env → Env × PrintResult) (env : Env) (c : Color) (cs : List Color) :
    (env.Enable = true → env.isLikeInCmd = false →
        (Set winSet env (c :: cs)).1 =
            { env with stdout := env.stdout ++ ("\x1b[" ++ colors2code (c :: cs) ++ "m") } ∧
          (Set winSet env (c :: cs)).2.2 = none ∧
          (Reset winReset env).1 = { env with stdout := env.stdout ++ "\x1b[0m" } ∧
          (Reset winReset env).2 = (4, none)) ∧
      (env.Enable = false →
        Set winSet env (c :: cs) = (env, (0, none)) ∧ Reset winReset env = (env, (0, none))) := by
  refine ⟨fun hE hW => ?_, fun hE => ⟨Set_disabled winSet env _ hE, Reset_disabled winReset env hE⟩⟩
  rw [Set_enabled winSet env (c :: cs) hE hW, Reset_enabled winReset env hE hW]
  exact ⟨rfl, rfl, rfl, rfl⟩

/-- The calls `Set(FgGreen, OpBold)` and `Reset()` on an output that holds `ab`,
enabled, and the same calls when disabled. -/
theorem Set_Reset_output_witness :
    (Set (fun e _ => (e, (0, none))) ⟨true, false, true, "ab"⟩ [FgGreen, OpBold]).1.stdout =
        "ab\x1b[32;1m" ∧
      (Reset (fun e => (e, (0, none))) ⟨true, false, true, "ab"⟩).1.stdout = "ab\x1b[0m" ∧
      Set (fun e _ => (e, (7, none))) ⟨false, false, true, "ab"⟩ [FgGreen, OpBold] =
        (⟨false, false, true, "ab"⟩, (0, none)) := by
  have h1 := (Set_Reset_output (fun e _ => (e, (0, none))) (fun e => (e, (0, none)))
    ⟨true, false, true, "ab"⟩ FgGreen [OpBold]).1 rfl rfl
  have h2 := (Set_Reset_output (fun e _ => (e, (7, none))) (fun e => (e, (0, none)))
    ⟨false, false, true, "ab"⟩ FgGreen [OpBold]).2 rfl
  refine ⟨?_, ?_, h2.1⟩
  · rw [h1.1]; decide
  · rw [h1.2.2.1]; decide

/-- C15 (the code's aliases): `FgGray` is `FgDarkGray`, but `BgGray` is 100 while
`BgDarkGray` is 99, so `BgGray` is `BgLightRed` and the two render different
strings. -/
theorem BgGray_not_BgDarkGray :
    FgGray = FgDarkGray ∧ BgGray = 100 ∧ BgDarkGray = 99 ∧ BgGray ≠ BgDarkGray ∧
      BgGray = BgLightRed ∧
      Color.Render ⟨true, false, true, ""⟩ BgGray ["x"] = "\x1b[100mx\x1b[0m" ∧
      Color.Render ⟨true, false, true, ""⟩ BgDarkGray ["x"] = "\x1b[99mx\x1b[0m" ∧
      Color.Render ⟨true, false, true, ""⟩ BgGray ["x"] ≠
        Color.Render ⟨true, false, true, ""⟩ BgDarkGray ["x"] := by
  decide

/-- C16: enabled with color supported, for every non-empty list of colors `cs`
and every message `M` without a match of the pattern,
`ClearCode(RenderCode(colors2code(cs), M)) = M`, and `ClearCode(c.Render(M)) = M`
for every color `c`; so it is for a message that ends with the partial sequence
`ESC [ 3` and for one that starts with `0m`. -/
theorem ClearCode_Render_colors (env : Env) (c : Color) (cs : List Color) (M : String)
    (hE : env.Enable = true) (hS : env.isSupportColor = true)
    (hM : hasCode M.data = false) :
    ClearCode (RenderCode env (colors2code (c :: cs)) [M]) = M ∧
      ClearCode (Color.Render env c [M]) = M ∧
      ClearCode (Color.Render env c ["text\x1b[3"]) = "text\x1b[3" ∧
      ClearCode (Color.Render env c ["0m text"]) = "0m text" := by
  have hne : colors2code (c :: cs) ≠ "" := colors2code_cons_ne_empty c cs
  have one : ∀ N : String, hasCode N.data = false → ClearCode (Color.Render env c [N]) = N := by
    intro N hN
    rw [Color.Render, RenderCode_enabled env _ [N] (Color_String_ne_empty c) hE hS, Sprint_single]
    exact stripChars_wrapped _ N (Color_String_ne_empty c)
      (fun x hx => isCodeChar_of_isDigit (Color_String_isDigit c x hx)) hN
  refine ⟨?_, one M hM, one _ (by decide), one _ (by decide)⟩
  rw [RenderCode_enabled env _ [M] hne hE hS, Sprint_single]
  exact stripChars_wrapped _ M hne (colors2code_isCodeChar (c :: cs)) hM

/-- The colors `FgGreen, BgDarkGray, OpBold` around a message that starts with
`0m` and ends with `ESC [ 3`. -/
theorem ClearCode_Render_colors_witness :
    RenderCode ⟨true, false, true, ""⟩ (colors2code [FgGreen, BgDarkGray, OpBold]) ["0m\x1b[3"] =
        "\x1b[32;99;1m0m\x1b[3\x1b[0m" ∧
      ClearCode (RenderCode ⟨true, false, true, ""⟩ (colors2code [FgGreen, BgDarkGray, OpBold])
        ["0m\x1b[3"]) = "0m\x1b[3" :=
  ⟨by decide, (ClearCode_Render_colors ⟨true, false, true, ""⟩ FgGreen [BgDarkGray, OpBold]
    "0m\x1b[3" rfl rfl (by decide)).1⟩

/-- C17: for every color `c`, every setting of the flags and every non-empty
message `M`, `c.Text(M) = c.Render(M)`; enabled with color supported,
`c.Text("") = ""` while `c.Render("")` is `ESC[ ++ c.String() ++ m ++ ESC[0m`. -/
theorem Text_eq_Render (env : Env) (c : Color) (M : String) :
    (M ≠ "" → Color.Text env c M = Color.Render env c [M]) ∧
      (env.Enable = true → env.isSupportColor = true →
        Color.Text env c "" = "" ∧
          Color.Render env c [""] = "\x1b[" ++ Color.String c ++ "m" ++ "\x1b[0m" ∧
          Color.Text env c "" ≠ Color.Render env c [""]) := by
  have hc := Color_String_ne_empty c
  refine ⟨fun hM => ?_, fun hE hS => ?_⟩
  · rw [Color.Text, Color.Render]
    cases hE : env.Enable with
    | false =>
      rw [RenderString_off env _ M hc hM (Or.inl hE), RenderCode_off env _ [M] hc (Or.inl hE),
        Sprint_single]
    | true =>
      cases hS : env.isSupportColor with
      | false =>
        rw [RenderString_off env _ M hc hM (Or.inr hS), RenderCode_off env _ [M] hc (Or.inr hS),
          Sprint_single]
      | true =>
        rw [RenderString_enabled env _ M hc hM hE hS, RenderCode_enabled env _ [M] hc hE hS,
          Sprint_single]
  · have hT : Color.Text env c "" = "" := RenderString_empty_str env _
    have hR : Color.Render env c [""] = "\x1b[" ++ Color.String c ++ "m" ++ "\x1b[0m" := by
      rw [Color.Render, RenderCode_enabled env _ [""] hc hE hS, Sprint_single,
        Sprintf_FullColorTpl]
      apply String.ext
      simp
    refine ⟨hT, hR, fun h => ?_⟩
    rw [hT, hR] at h
    have := congrArg String.data h
    simp at this

/-- The color `FgRed` on the message `hi`, disabled and enabled, and on the empty
message. -/
theorem Text_eq_Render_witness :
    Color.Text ⟨false, false, true, ""⟩ FgRed "hi" = Color.Render ⟨false, false, true, ""⟩ FgRed ["hi"] ∧
      Color.Text ⟨true, false, true, ""⟩ FgRed "hi" = "\x1b[31mhi\x1b[0m" ∧
      Color.Text ⟨true, false, true, ""⟩ FgRed "" = "" ∧
      Color.Render ⟨true, false, true, ""⟩ FgRed [""] = "\x1b[31m\x1b[0m" := by
  have h1 := (Text_eq_Render ⟨false, false, true, ""⟩ FgRed "hi").1 (by decide)
  have h2 := (Text_eq_Render ⟨true, false, true, ""⟩ FgRed "").2 rfl rfl
  exact ⟨h1, by decide, h2.1, h2.2.1.trans (by decide)⟩

/-- C18: `colors2code` is injective on lists of colors: equal code strings come
from equal lists; and the code string is empty only for the empty list. -/
theorem colors2code_injective (xs ys : List Color) :
    (colors2code xs = colors2code ys → xs = ys) ∧ (colors2code xs = "" ↔ xs = []) := by
  refine ⟨colors2code_inj xs ys, fun h => ?_, fun h => by rw [h]; rfl⟩
  cases xs with
  | nil => rfl
  | cons x xs => exact absurd h (colors2code_cons_ne_empty x xs)

/-- The lists `FgGreen, BgBlue, OpItalic` and `32, 44, 3` have the code string
`32;44;3`, and are the same list. -/
theorem colors2code_injective_witness :
    colors2code [FgGreen, BgBlue, OpItalic] = "32;44;3" ∧ colors2code [32, 44, 3] = "32;44;3" ∧
      [FgGreen, BgBlue, OpItalic] = ([32, 44, 3] : List Color) :=
  ⟨by decide, by decide,
    (colors2code_injective [FgGreen, BgBlue, OpItalic] [32, 44, 3]).1 (by decide)⟩

set_option maxRecDepth 100000 in
/-- C19: every color stored in the tables `FgColors`, `BgColors`, `ExFgColors`,
`ExBgColors` and `Options` satisfies `IsValid`, and so does every declared
constant `Fg*`, `Bg*`, `Op*`. -/
theorem tables_and_constants_IsValid :
    (∀ e ∈ FgColors ++ BgColors ++ ExFgColors ++ ExBgColors ++ Options,
        Color.IsValid e.2 = true) ∧
      (∀ c ∈ [FgBlack, FgRed, FgGreen, FgYellow, FgBlue, FgMagenta, FgCyan, FgWhite, FgDefault,
          FgDarkGray, FgLightRed, FgLightGreen, FgLightYellow, FgLightBlue, FgLightMagenta,
          FgLightCyan, FgLightWhite, FgGray,
          BgBlack, BgRed, BgGreen, BgYellow, BgBlue, BgMagenta, BgCyan, BgWhite, BgDefault,
          BgDarkGray, BgLightRed, BgLightGreen, BgLightYellow, BgLightBlue, BgLightMagenta,
          BgLightCyan, BgLightWhite, BgGray,
          OpReset, OpBold, OpFuzzy, OpItalic, OpUnderscore, OpBlink, OpFastBlink, OpReverse,
          OpConcealed, OpStrikethrough], Color.IsValid c = true) := by
  decide

end GoColor
